import Mathlib

/-!
Verification of the daily-chore scheduling logic of the chore-helper
component (`custom_components/chore_helper/chore_daily.py`).

Dates are modelled as integers (days since an arbitrary epoch): the only
date operations the source uses are subtraction in days, adding a number
of days, and comparison, all of which agree with integer arithmetic.
Python integer `%` is floor-mod (`Int.fmod`); for a positive modulus it
agrees with the Euclidean `%` of `Int`.

Configuration option values can be absent, `None`, an integer, or a
value of some other type (which makes date arithmetic raise `TypeError`);
they are modelled by `ConfigVal`.  Fallible computations return `Except`.

Functions of the base class `Chore` that are not part of the given source
(`calculate_day1`, `_calculate_schedule_start_date`, `get_next_due_date`,
`_calculate_start_date`) are modelled from the spec where needed and
marked as such; otherwise they appear as parameters.
-/

set_option linter.unreachableTactic false
set_option linter.unnecessarySeqFocus false
set_option linter.unusedTactic false

/-- A configuration option value as read from the option bag:
an integer, the value None, or a value of some other type. -/
inductive ConfigVal where
  | vint (n : Int)
  | vnone
  | vother
deriving DecidableEq, Repr

/-- Python floor-mod, the semantics of the `%` operator on Python ints. -/
def pymod (a b : Int) : Int := Int.fmod a b

/-- The arithmetic core of `DailyChore._find_candidate_date`
(the try-block, lines 127-138): given schedule start date, period and the
(already normalised) day1, compute
`remainder = (day1 - schedule_start_date).days % period`; if zero the
result is `day1`, otherwise `day1 + (period - remainder)` days. -/
def findCandidate (schedule_start_date period day1 : Int) : Int :=
  let remainder := pymod (day1 - schedule_start_date) period
  if remainder = 0 then day1 else day1 + (period - remainder)

/-- Modelled from the spec: `Chore.calculate_day1` (base class, not in the
given source) — "day1 is first normalized to be no earlier than
scheduleStartDate".  When no schedule start date is available the day is
returned unchanged. -/
def calculate_day1 (day1 : Int) (schedule_start_date : Option Int) : Int :=
  match schedule_start_date with
  | some s => max day1 s
  | none => day1

/-- `DailyChore._find_candidate_date` (lines 115-146).  The schedule start
date (produced by `_calculate_schedule_start_date`) is a parameter.
Control flow of the source: normalise `day1`; if the schedule start date
or the period is `None`, log an error and return `None`; otherwise do the
remainder arithmetic.  A non-integer period makes the `%` raise
`TypeError`, which the source catches and re-raises as a `ValueError`
naming the chore; a zero period raises `ZeroDivisionError`, which is not
caught and propagates. -/
def find_candidate_date (name : String) (schedule_start_date : Option Int)
    (period : ConfigVal) (day1 : Int) : Except String (Option Int) :=
  let d1 := calculate_day1 day1 schedule_start_date
  match schedule_start_date, period with
  | none, _ => Except.ok none
  | some _, ConfigVal.vnone => Except.ok none
  | some s, ConfigVal.vint p =>
      if p = 0 then
        Except.error "ZeroDivisionError: integer modulo by zero"
      else
        Except.ok (some (findCandidate s p d1))
  | some _, ConfigVal.vother =>
      Except.error ("(" ++ name ++ ") Please configure start_date and period "
        ++ "for every-n-days or after-n-days chore frequency.")

/-- `DailyChore.__init__` (lines 12-16): the period is read from the
option bag by `config.get('period', 1)` — the stored value when the key
is present (even if that value is None), and the default `1` otherwise.
Construction never fails. -/
def dailyChorePeriod (options : List (String × ConfigVal)) : ConfigVal :=
  (options.lookup "period").getD (ConfigVal.vint 1)

/-- The icon classes the state update selects between. -/
inductive Icon where
  | normal
  | overdue
  | today
  | tomorrow
deriving DecidableEq, Repr

/-- The derived chore state written by `update_state`. -/
structure ChoreStateR where
  nextDue : Option Int
  days : Option Int
  icon : Icon
  overdue : Bool
  overdueDays : Option Int
deriving DecidableEq, Repr

/-- The attribute computation of `update_state` (lines 55-85): from the
next due date candidate and today, derive days, icon, overdue flag and
overdue-days exactly as the if/elif chain of the source does. -/
def stateFields (nextDue : Option Int) (today : Int) : ChoreStateR :=
  match nextDue with
  | some nd =>
      { nextDue := some nd
        days := some (nd - today)
        icon :=
          if nd - today > 1 then Icon.normal
          else if nd - today < 0 then Icon.overdue
          else if nd - today = 0 then Icon.today
          else Icon.tomorrow
        overdue := nd - today < 0
        overdueDays := some (if nd - today > -1 then 0 else |nd - today|) }
  | none =>
      { nextDue := none, days := none, icon := Icon.normal
        overdue := false, overdueDays := none }

/-- Claim C1: for a valid configuration with period at least 1 and
day1 no earlier than the schedule start date, `_find_candidate_date`
returns a date r with `(r - schedule_start_date) % period = 0`,
`day1 ≤ r`, and r smallest such, i.e. `r < day1 + period`. -/
theorem find_candidate_date_spec (name : String) (s p day1 : Int)
    (hp : 1 ≤ p) (hd : s ≤ day1) :
    ∃ r, find_candidate_date name (some s) (ConfigVal.vint p) day1
        = Except.ok (some r)
      ∧ (r - s) % p = 0 ∧ day1 ≤ r ∧ r < day1 + p := by
  have hp0 : p ≠ 0 := by omega
  have hfm : pymod (day1 - s) p = (day1 - s) % p :=
    Int.fmod_eq_emod _ (by omega)
  refine ⟨findCandidate s p day1, ?_, ?_, ?_, ?_⟩
  · simp only [find_candidate_date, calculate_day1, max_eq_left hd]
    simp [hp0]
  · unfold findCandidate
    rw [hfm]
    by_cases h : (day1 - s) % p = 0
    · simp [h]
    · have key : day1 + (p - (day1 - s) % p) - s = p * ((day1 - s) / p + 1) := by
        have := Int.emod_add_ediv (day1 - s) p
        ring_nf
        omega
      simp only [h, if_false]
      rw [key]
      exact Int.mul_emod_right _ _
  · unfold findCandidate
    rw [hfm]
    by_cases h : (day1 - s) % p = 0
    · simp [h]
    · have hlt : (day1 - s) % p < p := Int.emod_lt_of_pos _ (by omega)
      simp only [h, if_false]
      omega
  · unfold findCandidate
    rw [hfm]
    by_cases h : (day1 - s) % p = 0
    · simp [h]; omega
    · have hge : 0 ≤ (day1 - s) % p := Int.emod_nonneg _ hp0
      simp only [h, if_false]
      omega

/-- Witness for C1 at the spec scenario: period 3, schedule start 0,
day1 1; the candidate is 3 (remainder 1, offset 2). -/
theorem find_candidate_date_spec_witness :
    (1 : Int) ≤ 3 ∧ (0 : Int) ≤ 1 ∧
    ∃ r, find_candidate_date "kitchen" (some 0) (ConfigVal.vint 3) 1
        = Except.ok (some r)
      ∧ (r - 0) % 3 = 0 ∧ 1 ≤ r ∧ r < 1 + 3 :=
  ⟨by decide, by decide,
    find_candidate_date_spec "kitchen" 0 3 1 (by decide) (by decide)⟩

/-- Claim C2: with a next due date candidate present, `update_state` sets
days to (candidate - today), chooses the icon by the classification
days greater than 1 normal, negative overdue, zero today, one tomorrow,
sets the overdue flag exactly when days is negative, and sets
overdue-days to max 0 (-days). -/
theorem update_state_classification (nd today : Int) :
    (stateFields (some nd) today).days = some (nd - today)
    ∧ ((stateFields (some nd) today).icon = Icon.normal ↔ 1 < nd - today)
    ∧ ((stateFields (some nd) today).icon = Icon.overdue ↔ nd - today < 0)
    ∧ ((stateFields (some nd) today).icon = Icon.today ↔ nd - today = 0)
    ∧ ((stateFields (some nd) today).icon = Icon.tomorrow ↔ nd - today = 1)
    ∧ ((stateFields (some nd) today).overdue = true ↔ nd - today < 0)
    ∧ (stateFields (some nd) today).overdueDays
        = some (max 0 (-(nd - today))) := by
  refine ⟨rfl, ?_, ?_, ?_, ?_, ?_, ?_⟩
  · simp only [stateFields]
    split_ifs <;> simp_all <;> omega
  · simp only [stateFields]
    split_ifs <;> simp_all <;> omega
  · simp only [stateFields]
    split_ifs <;> simp_all <;> omega
  · simp only [stateFields]
    split_ifs <;> simp_all <;> omega
  · simp only [stateFields]
    simp
  · simp only [stateFields, Option.some_inj]
    split_ifs with h
    · rw [max_eq_left (show -(nd - today) ≤ 0 by omega)]
    · rw [abs_of_neg (show nd - today < 0 by omega),
        max_eq_right (show (0 : Int) ≤ -(nd - today) by omega)]

/-!
Pruning of the persisted override collections (`update_state`,
lines 87-112).  A persisted date token is represented by the outcome of
parsing it with `datetime.strptime`: `some d` when it parses to the date
`d`, `none` when it is malformed (in which case `strptime` raises
`ValueError`).  The list comprehension of the source evaluates `strptime`
on every token and there is no surrounding try/except, so a malformed
token makes the whole comprehension — and with it `update_state` — raise.
-/

/-- The pruning comprehension for the add and remove collections
(lines 88-103): keep the tokens whose parsed date is at least the start
date; a token that fails to parse raises. -/
def pruneDateTokens : List (Option Int) → Int → Except Unit (List Int)
  | [], _ => Except.ok []
  | none :: _, _ => Except.error ()
  | some d :: rest, b =>
    match pruneDateTokens rest b with
    | Except.error e => Except.error e
    | Except.ok r => Except.ok (if b ≤ d then d :: r else r)

/-- The pruning comprehension for the offset collection (lines 104-112):
tokens are `date:delta` pairs, the date part is parsed and compared, the
whole pair is kept; a date part that fails to parse raises. -/
def pruneOffsetTokens : List (Option Int × Int) → Int → Except Unit (List (Int × Int))
  | [], _ => Except.ok []
  | (none, _) :: _, _ => Except.error ()
  | (some d, dl) :: rest, b =>
    match pruneOffsetTokens rest b with
    | Except.error e => Except.error e
    | Except.ok r => Except.ok (if b ≤ d then (d, dl) :: r else r)

theorem pruneDateTokens_ok_mem (l : List (Option Int)) (b : Int) :
    ∀ r, pruneDateTokens l b = Except.ok r → ∀ d ∈ r, b ≤ d := by
  induction l with
  | nil =>
    intro r h
    simp only [pruneDateTokens, Except.ok.injEq] at h
    simp [← h]
  | cons x rest ih =>
    intro r h
    match x with
    | none => simp [pruneDateTokens] at h
    | some d =>
      simp only [pruneDateTokens] at h
      cases hrec : pruneDateTokens rest b with
      | error e => rw [hrec] at h; cases h
      | ok r2 =>
        rw [hrec] at h
        simp only [Except.ok.injEq] at h
        subst h
        intro d2 hd2
        by_cases hbd : b ≤ d
        · simp only [if_pos hbd, List.mem_cons] at hd2
          rcases hd2 with h1 | h2
          · omega
          · exact ih r2 hrec d2 h2
        · simp only [if_neg hbd] at hd2
          exact ih r2 hrec d2 hd2

theorem pruneDateTokens_ok_keep (l : List (Option Int)) (b : Int) :
    ∀ r, pruneDateTokens l b = Except.ok r →
      ∀ d, some d ∈ l → b ≤ d → d ∈ r := by
  induction l with
  | nil =>
    intro r h d hd
    simp at hd
  | cons x rest ih =>
    intro r h d hd hbd
    match x with
    | none => simp [pruneDateTokens] at h
    | some d0 =>
      simp only [pruneDateTokens] at h
      cases hrec : pruneDateTokens rest b with
      | error e => rw [hrec] at h; cases h
      | ok r2 =>
        rw [hrec] at h
        simp only [Except.ok.injEq] at h
        subst h
        rcases List.mem_cons.mp hd with h1 | h2
        · have hdd : d = d0 := by injection h1
          subst hdd
          simp [if_pos hbd]
        · have hmem := ih r2 hrec d h2 hbd
          by_cases hb0 : b ≤ d0
          · simp [if_pos hb0, List.mem_cons, hmem]
          · simpa [if_neg hb0] using hmem

theorem pruneOffsetTokens_ok_mem (l : List (Option Int × Int)) (b : Int) :
    ∀ r, pruneOffsetTokens l b = Except.ok r → ∀ p ∈ r, b ≤ p.1 := by
  induction l with
  | nil =>
    intro r h
    simp only [pruneOffsetTokens, Except.ok.injEq] at h
    simp [← h]
  | cons x rest ih =>
    intro r h
    match x with
    | (none, dl) => simp [pruneOffsetTokens] at h
    | (some d, dl) =>
      simp only [pruneOffsetTokens] at h
      cases hrec : pruneOffsetTokens rest b with
      | error e => rw [hrec] at h; cases h
      | ok r2 =>
        rw [hrec] at h
        simp only [Except.ok.injEq] at h
        subst h
        intro p hp
        by_cases hbd : b ≤ d
        · simp only [if_pos hbd, List.mem_cons] at hp
          rcases hp with h1 | h2
          · rw [h1]
            exact hbd
          · exact ih r2 hrec p h2
        · simp only [if_neg hbd] at hp
          exact ih r2 hrec p hp

theorem pruneOffsetTokens_ok_keep (l : List (Option Int × Int)) (b : Int) :
    ∀ r, pruneOffsetTokens l b = Except.ok r →
      ∀ d dl, (some d, dl) ∈ l → b ≤ d → (d, dl) ∈ r := by
  induction l with
  | nil =>
    intro r h d dl hd
    simp at hd
  | cons x rest ih =>
    intro r h d dl hd hbd
    match x with
    | (none, dl0) => simp [pruneOffsetTokens] at h
    | (some d0, dl0) =>
      simp only [pruneOffsetTokens] at h
      cases hrec : pruneOffsetTokens rest b with
      | error e => rw [hrec] at h; cases h
      | ok r2 =>
        rw [hrec] at h
        simp only [Except.ok.injEq] at h
        subst h
        rcases List.mem_cons.mp hd with h1 | h2
        · simp only [Prod.mk.injEq, Option.some.injEq] at h1
          rcases h1 with ⟨hdd1, hdd2⟩
          subst hdd1; subst hdd2
          simp [if_pos hbd]
        · have hmem := ih r2 hrec d dl h2 hbd
          by_cases hb0 : b ≤ d0
          · simp [if_pos hb0, List.mem_cons, hmem]
          · simpa [if_neg hb0] using hmem

/-- Claim C5: when the pruning step of a recompute completes, every entry
remaining in each of the add, remove and offset collections has its date
at least the schedule-start boundary, and entries whose date equals the
boundary are retained. -/
theorem prune_boundary
    (adds removes : List (Option Int)) (offs : List (Option Int × Int))
    (b : Int) (ra rr : List Int) (ro : List (Int × Int))
    (ha : pruneDateTokens adds b = Except.ok ra)
    (hr : pruneDateTokens removes b = Except.ok rr)
    (ho : pruneOffsetTokens offs b = Except.ok ro) :
    (∀ d ∈ ra, b ≤ d) ∧ (∀ d ∈ rr, b ≤ d) ∧ (∀ p ∈ ro, b ≤ p.1)
    ∧ (some b ∈ adds → b ∈ ra) ∧ (some b ∈ removes → b ∈ rr)
    ∧ (∀ dl, (some b, dl) ∈ offs → (b, dl) ∈ ro) :=
  ⟨pruneDateTokens_ok_mem adds b ra ha,
   pruneDateTokens_ok_mem removes b rr hr,
   pruneOffsetTokens_ok_mem offs b ro ho,
   fun h => pruneDateTokens_ok_keep adds b ra ha b h le_rfl,
   fun h => pruneDateTokens_ok_keep removes b rr hr b h le_rfl,
   fun dl h => pruneOffsetTokens_ok_keep offs b ro ho b dl h le_rfl⟩

/-- Witness for C5 on concrete collections with boundary 4: the stale
date 3 is pruned, the dates 5, 4 and the offset target 6 are kept. -/
theorem prune_boundary_witness :
    pruneDateTokens [some 5, some 3] 4 = Except.ok [5]
    ∧ pruneDateTokens [some 4] 4 = Except.ok [4]
    ∧ pruneOffsetTokens [(some 6, 2), (some 1, 1)] 4 = Except.ok [(6, 2)]
    ∧ ((∀ d ∈ [(5 : Int)], (4 : Int) ≤ d) ∧ (∀ d ∈ [(4 : Int)], (4 : Int) ≤ d)
      ∧ (∀ p ∈ [((6 : Int), (2 : Int))], (4 : Int) ≤ p.1)
      ∧ (some 4 ∈ [some (5 : Int), some 3] → (4 : Int) ∈ [(5 : Int)])
      ∧ (some 4 ∈ [some (4 : Int)] → (4 : Int) ∈ [(4 : Int)])
      ∧ (∀ dl, (some (4 : Int), dl) ∈ [(some (6 : Int), (2 : Int)), (some 1, 1)]
          → ((4 : Int), dl) ∈ [((6 : Int), (2 : Int))])) :=
  ⟨rfl, rfl, rfl,
    prune_boundary [some 5, some 3] [some 4] [(some 6, 2), (some 1, 1)] 4
      [5] [4] [(6, 2)] rfl rfl rfl⟩

/-- Claim C6 counterexample: a collection holding one malformed token,
pruned at boundary 0: the source raises (the strptime call in the
comprehension has no handler), it does not drop the token and continue. -/
theorem prune_malformed_counterexample :
    pruneDateTokens [none] 0 = Except.error ()
    ∧ pruneDateTokens [none] 0 ≠ Except.ok [] := by
  refine ⟨rfl, ?_⟩
  intro h
  cases h

/-- Claim C6 amended: a date token that fails to parse during pruning
makes the pruning step raise — aborting the enclosing update_state — for
every collection content containing it; malformed tokens are never
dropped. -/
theorem prune_malformed_raises (l : List (Option Int)) (b : Int)
    (h : none ∈ l) : pruneDateTokens l b = Except.error () := by
  induction l with
  | nil => simp at h
  | cons x rest ih =>
    match x with
    | none => rfl
    | some d =>
      have hrest : none ∈ rest := by
        rcases List.mem_cons.mp h with h1 | h2
        · cases h1
        · exact h2
      simp only [pruneDateTokens, ih hrest]

/-- Witness for the amended C6 on a concrete collection. -/
theorem prune_malformed_raises_witness :
    (none ∈ [some (3 : Int), none])
    ∧ pruneDateTokens [some 3, none] 7 = Except.error () :=
  ⟨by decide, prune_malformed_raises [some 3, none] 7 (by decide)⟩

/-!
The full recompute (`update_state`, lines 45-113) at the level of parsed
dates — the run in which every persisted token parses.  The due-date
computation `get_next_due_date` and the start date `_calculate_start_date`
belong to the base class `Chore`, which is not part of the given source;
`get_next_due_date` is modelled from the spec (sections 4.3 and 4.4) and
the start date is a parameter.
-/

/-- The override collections (add, remove, offset) of a chore, parsed. -/
structure Ledger where
  addDates : List Int
  removeDates : List Int
  offsetDates : List (Int × Int)
deriving DecidableEq, Repr

/-- Modelled from the spec: the candidate-resolution loop of
`get_next_due_date` (base class `Chore`, not in the given source),
spec 4.3 and 4.4 step 3 — ask the recurrence rule for a candidate; if it
is in the removed set, re-ask for the candidate after it (bounded by a
fuel cap, exhausting it means no schedule); when the candidate matches an
offset entry target, shift it by the entry delta. -/
def resolveCandidate (ssd period : Int) (removes : List Int)
    (offs : List (Int × Int)) : Nat → Int → Option Int
  | 0, _ => none
  | fuel + 1, fro =>
    let c := findCandidate ssd period fro
    if c ∈ removes then resolveCandidate ssd period removes offs fuel (c + 1)
    else
      match offs.lookup c with
      | some dl => some (c + dl)
      | none => some c

/-- Modelled from the spec: `get_next_due_date` (base class `Chore`, not
in the given source), spec 4.3 — added dates are merged into the
candidate stream as additional eligible due dates, taking precedence when
no later than the raw candidate. -/
def getNextDueDate (ssd period : Int) (fuel : Nat) (led : Ledger)
    (startDate : Int) : Option Int :=
  let raw := resolveCandidate ssd period led.removeDates led.offsetDates
    fuel startDate
  match raw, led.addDates.min? with
  | some r, some a => some (min a r)
  | some r, none => some r
  | none, some a => some a
  | none, none => none

/-- The pruning step of `update_state` (lines 87-112) at the level of
parsed dates: keep every entry whose date is at least the start date. -/
def pruneLedger (led : Ledger) (b : Int) : Ledger :=
  { addDates := led.addDates.filter (fun d => b ≤ d)
    removeDates := led.removeDates.filter (fun d => b ≤ d)
    offsetDates := led.offsetDates.filter (fun p => b ≤ p.1) }

/-- `DailyChore.update_state` (lines 45-113) at the level of parsed
dates: compute the next due date from the — not yet pruned — override
collections, derive the state attributes, then prune the collections to
the start date.  The start date and today are parameters. -/
def update_state (ssd period : Int) (fuel : Nat) (startDate today : Int)
    (led : Ledger) : ChoreStateR × Ledger :=
  (stateFields (getNextDueDate ssd period fuel led startDate) today,
    pruneLedger led startDate)

/-- Claim C3 counterexample: with the schedule start date missing (None)
and a valid period, `_find_candidate_date` does not raise a configuration
error — it logs and returns None, the very value of the
no-more-due-dates case. -/
theorem find_candidate_date_missing_counterexample :
    find_candidate_date "kitchen" none (ConfigVal.vint 3) 5
      = Except.ok none := rfl

/-- Claim C3 amended: when the schedule start date or the period is None
or missing, `_find_candidate_date` logs an error and returns None —
indistinguishable from the no-more-due-dates case; only when both are
present but the period is a non-numeric value does the arithmetic raise
TypeError, re-raised as a ValueError naming the chore, which propagates
to the caller. -/
theorem find_candidate_date_missing_behavior (name : String) (day1 : Int) :
    (∀ p, find_candidate_date name none p day1 = Except.ok none)
    ∧ (∀ s : Int,
        find_candidate_date name (some s) ConfigVal.vnone day1
          = Except.ok none)
    ∧ (∀ s : Int,
        find_candidate_date name (some s) ConfigVal.vother day1
          = Except.error
              ("(" ++ name ++ ") Please configure start_date and period "
                ++ "for every-n-days or after-n-days chore frequency.")) := by
  refine ⟨?_, ?_, ?_⟩ <;> intro x
  · cases x <;> rfl
  · rfl
  · rfl

/-- Claim C4 counterexample: constructing a DailyChore from an option bag
with no period entry succeeds and silently sets the period to the default
1 — no configuration error is raised. -/
theorem daily_chore_period_default_counterexample :
    dailyChorePeriod [] = ConfigVal.vint 1 := rfl

/-- Claim C4 amended: when the period option is absent from the option
bag, DailyChore construction succeeds and defaults the period to 1
(`config.get` with default 1); no configuration error is raised. -/
theorem daily_chore_period_default (options : List (String × ConfigVal))
    (h : options.lookup "period" = none) :
    dailyChorePeriod options = ConfigVal.vint 1 := by
  simp [dailyChorePeriod, h]

/-- Witness for the amended C4 on the empty option bag. -/
theorem daily_chore_period_default_witness :
    (([] : List (String × ConfigVal)).lookup "period" = none)
    ∧ dailyChorePeriod [] = ConfigVal.vint 1 :=
  ⟨rfl, daily_chore_period_default [] rfl⟩

/-- Claim C7 counterexample: schedule start 0, period 3, start date
(boundary) 10, today 10, and a stale add override at day 5 (before the
boundary).  The recompute reports day 5 as next due — the stale entry is
used — while the same recompute on the pruned collections reports the raw
candidate day 12: pruning runs only after the due-date computation. -/
theorem update_state_prune_order_counterexample :
    (update_state 0 3 10 10 10 ⟨[5], [], []⟩).1.nextDue = some 5
    ∧ (5 : Int) < 10
    ∧ (update_state 0 3 10 10 10
        (pruneLedger ⟨[5], [], []⟩ 10)).1.nextDue = some 12 :=
  ⟨rfl, by decide, rfl⟩

/-- Claim C7 amended: on every recompute the override collections are
pruned to the boundary — the collections handed to later recomputes hold
no entry strictly earlier than it — but the pruning happens after the
due-date computation: the state reported by the current recompute is
derived from the un-pruned collections. -/
theorem update_state_prunes_after (ssd period : Int) (fuel : Nat)
    (startDate today : Int) (led : Ledger) :
    (∀ d ∈ (update_state ssd period fuel startDate today led).2.addDates,
      startDate ≤ d)
    ∧ (∀ d ∈ (update_state ssd period fuel startDate today led).2.removeDates,
      startDate ≤ d)
    ∧ (∀ p ∈ (update_state ssd period fuel startDate today led).2.offsetDates,
      startDate ≤ p.1)
    ∧ (update_state ssd period fuel startDate today led).1
        = stateFields (getNextDueDate ssd period fuel led startDate) today := by
  refine ⟨?_, ?_, ?_, rfl⟩ <;>
    · intro d hd
      simp only [update_state, pruneLedger, List.mem_filter,
        decide_eq_true_eq] at hd
      exact hd.2

/-- Claim C8 counterexample: with the stale add override at day 5 of the
C7 scenario, the first recompute reports day 5 and prunes the entry; the
second recompute, with unchanged configuration and the same today, then
reports day 12 — the two runs do not produce the same state. -/
theorem update_state_idempotent_counterexample :
    (update_state 0 3 10 10 10 ⟨[5], [], []⟩).1.nextDue = some 5
    ∧ (update_state 0 3 10 10 10
        ((update_state 0 3 10 10 10 ⟨[5], [], []⟩).2)).1.nextDue = some 12
    ∧ (update_state 0 3 10 10 10
          ((update_state 0 3 10 10 10 ⟨[5], [], []⟩).2)).1
        ≠ (update_state 0 3 10 10 10 ⟨[5], [], []⟩).1 := by
  refine ⟨rfl, rfl, ?_⟩
  intro h
  simp [update_state, getNextDueDate, pruneLedger, resolveCandidate,
    findCandidate, pymod, stateFields] at h

/-- Claim C8 amended: when no override entry is strictly earlier than the
boundary start date, running update_state twice with unchanged
configuration, collections and now gives exactly the state and
collections of the first run. -/
theorem update_state_idempotent (ssd period : Int) (fuel : Nat)
    (startDate today : Int) (led : Ledger)
    (ha : ∀ d ∈ led.addDates, startDate ≤ d)
    (hr : ∀ d ∈ led.removeDates, startDate ≤ d)
    (ho : ∀ p ∈ led.offsetDates, startDate ≤ p.1) :
    update_state ssd period fuel startDate today
        ((update_state ssd period fuel startDate today led).2)
      = update_state ssd period fuel startDate today led := by
  have hprune : pruneLedger led startDate = led := by
    cases led with
    | mk a r o =>
      simp only [pruneLedger, Ledger.mk.injEq]
      refine ⟨?_, ?_, ?_⟩ <;>
        · rw [List.filter_eq_self]
          intro x hx
          simp only [decide_eq_true_eq]
          first
            | exact ha x hx
            | exact hr x hx
            | exact ho x hx
  show update_state ssd period fuel startDate today
      (pruneLedger led startDate) = _
  rw [hprune]

/-- Witness for the amended C8: boundary 10 with all override entries at
day 10 or later. -/
theorem update_state_idempotent_witness :
    (∀ d ∈ [(10 : Int)], (10 : Int) ≤ d)
    ∧ (∀ d ∈ [(13 : Int)], (10 : Int) ≤ d)
    ∧ (∀ p ∈ [((12 : Int), (1 : Int))], (10 : Int) ≤ p.1)
    ∧ update_state 0 3 5 10 10
        ((update_state 0 3 5 10 10 ⟨[10], [13], [(12, 1)]⟩).2)
      = update_state 0 3 5 10 10 ⟨[10], [13], [(12, 1)]⟩ :=
  ⟨by decide, by decide, by decide,
    update_state_idempotent 0 3 5 10 10 ⟨[10], [13], [(12, 1)]⟩
      (by decide) (by decide) (by decide)⟩

/-- The observable side effects of one `async_update` cycle. -/
structure UpdateEffects where
  eventFired : Bool
  stateWritten : Bool
deriving DecidableEq, Repr

/-- `DailyChore.async_update` (lines 18-43) as the side effects of one
update cycle: nothing happens unless the readiness gate passes
(`_async_ready_for_update` and `hass.is_running`) and the entity id is
assigned; then the chore_helper_loaded event is fired, and unless the
manual flag is set, `update_state` runs, which — the entity id being
assigned — ends by writing the state. -/
def async_update (ready running hasEntityId manual : Bool) : UpdateEffects :=
  if !ready || !running then ⟨false, false⟩
  else if !hasEntityId then ⟨false, false⟩
  else ⟨true, !manual⟩

/-- Claim C9: in an update cycle that completes the readiness and
entity-id checks, the state is written exactly when the manual flag is
false: non-manual chores compute and publish, manual chores get no
automatic state write. -/
theorem async_update_manual_gates_write (manual : Bool) :
    (async_update true true true manual).stateWritten = !manual := by
  cases manual <;> rfl

/-- Claim C10: in an update cycle that completes the readiness and
entity-id checks, the chore_helper_loaded event is fired whatever the
manual flag is; the manual flag suppresses only the state write. -/
theorem async_update_always_fires_event (manual : Bool) :
    (async_update true true true manual).eventFired = true
    ∧ (async_update true true true manual).stateWritten = !manual := by
  cases manual <;> exact ⟨rfl, rfl⟩
